import Mathlib

/-!
# Verification of the canvas-bop conversation canvas

Shallow embedding of the conversation-graph data model and operations of the
canvas-bop repository (a visual chat client):

* `Graph` embeds the full conversation-graph component (the file defining
  `getConversationHistory`, `addNode`, `createNextUserNode`, `addBotResponse`,
  `addBranchFromSelection`, `commitEdit`, `deleteNode`, drag moves, and the
  streaming read loop over `data: `-prefixed server-sent-event lines).
* `Canvas` embeds `ConversationCanvas.tsx` (coordinate transforms,
  `pointInRect` hit-testing, `onMouseDown`, `onWheel`).
* `TestChat` embeds the Test chat's `handleSend` streaming read loop.

JavaScript numbers are modelled as rationals (`ℚ`); the insertion-ordered
JavaScript object `Record<NodeId, Node>` is modelled as a list of nodes with
`upsert` (overwrite-in-place-or-append, matching `{...nodes, [id]: n}` under
the key uniqueness that all reachable scenes have); `JSON.parse` together with
the `parsed.choices[0].delta` field accesses is modelled as an abstract
function `Parse : String → Option Event`, `none` meaning a thrown exception.
-/

namespace CanvasBop

abbrev NodeId := String

inductive Author
| user
| llm
deriving DecidableEq, Repr

/-- A node of the conversation graph: `{ id, x, y, w, h, text, author, parentId? }`. -/
structure Node where
  id : NodeId
  x : ℚ
  y : ℚ
  w : ℚ
  h : ℚ
  text : String
  author : Author
  parentId : Option NodeId
deriving DecidableEq, Repr

/-- An edge `{ from, to, fromPoint? }` (`from`/`to` renamed: `from` is a Lean keyword). -/
structure Edge where
  fromId : NodeId
  toId : NodeId
  fromPoint : Option (ℚ × ℚ)
deriving DecidableEq, Repr

/-- The scene: `{ nodes: Record<NodeId, Node>, edges: Edge[] }`.  The record is
modelled as an insertion-ordered list of nodes keyed by their `id` field. -/
structure Scene where
  nodes : List Node
  edges : List Edge
deriving DecidableEq, Repr

/-- `nodes[id]`: first node with the given id. -/
def lookupNode : List Node → NodeId → Option Node
  | [], _ => none
  | n :: rest, id => if n.id == id then some n else lookupNode rest id

/-- `id in nodes`: the key exists in the node map. -/
def containsKey : List Node → NodeId → Bool
  | [], _ => false
  | n :: rest, id => n.id == id || containsKey rest id

/-- `{...nodes, [n.id]: n}`: overwrite the entry in place if the key exists,
otherwise append (JavaScript object spread semantics for unique keys). -/
def upsert : List Node → Node → List Node
  | [], n => [n]
  | m :: rest, n => if m.id == n.id then n :: rest else m :: upsert rest n

/-- The scene update `{...s, nodes: {...s.nodes, [id]: {...s.nodes[id], text: t}}}`
used by the streaming loop, the catch branch, and `commitEdit`.  When the key is
absent the source spreads `undefined` and produces an entry carrying only the
text; the remaining fields are defaulted here (this case is unreachable in the
claims considered, which insert the node first). -/
def updateText (ns : List Node) (id : NodeId) (t : String) : List Node :=
  match lookupNode ns id with
  | some n => upsert ns { n with text := t }
  | none =>
      upsert ns
        { id := id, x := 0, y := 0, w := 0, h := 0, text := t, author := Author.llm,
          parentId := none }

/-- The scene-level wrapper of `updateText` (the edge list is untouched). -/
def updateNodeText (s : Scene) (id : NodeId) (t : String) : Scene :=
  { s with nodes := updateText s.nodes id t }

/-- `LOADING_PLACEHOLDER` of the conversation graph. -/
def LOADING_PLACEHOLDER : String := "___LOADING___"

/-- The literal written by the catch branches of `addBotResponse` and
`addBranchFromSelection`. -/
def errorText : String := "Error fetching response."

/-- One committed `setScene` update of the conversation-graph component.  Each
constructor carries the ids the source draws from `uid()`. -/
inductive SceneOp
  /-- `addNode` (context menu): a fresh parentless user node at the click point. -/
  | addNode (id : NodeId) (x y : ℚ)
  /-- `createNextUserNode`: empty user node under an existing parent. -/
  | createNextUserNode (id : NodeId) (parentNodeId : NodeId)
  /-- the initial insertion performed by `addBotResponse`. -/
  | addBotInsert (botNodeId : NodeId) (parentNodeId : NodeId)
  /-- the initial insertion performed by `addBranchFromSelection`: only the bot
  node is added to the scene; its `parentId` names the synthetic user node
  `userNodeId`, which is used for the request history but never inserted. -/
  | branchInsert (botNodeId userNodeId sourceNodeId : NodeId) (fpx fpy : ℚ)
  /-- `commitEdit`: overwrite the text of the node being edited. -/
  | commitEdit (id : NodeId) (t : String)
  /-- one `onMouseMove` drag update of a node's position. -/
  | dragMove (id : NodeId) (x y : ℚ)
  /-- `deleteNode`: remove the node and every edge touching it. -/
  | deleteNode (id : NodeId)
  /-- one streaming text write (or the catch-branch error write). -/
  | streamUpdate (id : NodeId) (t : String)
deriving DecidableEq, Repr

/-- Apply one committed scene update, mirroring the corresponding `setScene`
call of the source. -/
def applyOp (s : Scene) : SceneOp → Scene
  | SceneOp.addNode id x y =>
      let newNode : Node :=
        { id := id, x := x, y := y, w := 220, h := 60, text := "", author := Author.user,
          parentId := none }
      { s with nodes := upsert s.nodes newNode }
  | SceneOp.createNextUserNode id parentNodeId =>
      match lookupNode s.nodes parentNodeId with
      | none => s
      | some parentNode =>
          let newNode : Node :=
            { id := id, x := parentNode.x, y := parentNode.y + parentNode.h + 60, w := 240,
              h := 60, text := "", author := Author.user, parentId := some parentNodeId }
          { nodes := upsert s.nodes newNode,
            edges := s.edges ++ [{ fromId := parentNodeId, toId := id, fromPoint := none }] }
  | SceneOp.addBotInsert botNodeId parentNodeId =>
      match lookupNode s.nodes parentNodeId with
      | none => s
      | some parentNode =>
          let botNode : Node :=
            { id := botNodeId, x := parentNode.x, y := parentNode.y + parentNode.h + 60,
              w := 240, h := 60, text := LOADING_PLACEHOLDER, author := Author.llm,
              parentId := some parentNodeId }
          { nodes := upsert s.nodes botNode,
            edges := s.edges ++ [{ fromId := parentNodeId, toId := botNodeId, fromPoint := none }] }
  | SceneOp.branchInsert botNodeId userNodeId sourceNodeId fpx fpy =>
      match lookupNode s.nodes sourceNodeId with
      | none => s
      | some sourceNode =>
          let botNode : Node :=
            { id := botNodeId, x := sourceNode.x + sourceNode.w + 40, y := sourceNode.y,
              w := 240, h := 60, text := LOADING_PLACEHOLDER, author := Author.llm,
              parentId := some userNodeId }
          { nodes := upsert s.nodes botNode,
            edges := s.edges ++
              [{ fromId := sourceNodeId, toId := botNodeId, fromPoint := some (fpx, fpy) }] }
  | SceneOp.commitEdit id t =>
      match lookupNode s.nodes id with
      | some n => { s with nodes := upsert s.nodes { n with text := t } }
      | none => s
  | SceneOp.dragMove id x y =>
      match lookupNode s.nodes id with
      | some n => { s with nodes := upsert s.nodes { n with x := x, y := y } }
      | none => s
  | SceneOp.deleteNode id =>
      { nodes := s.nodes.filter (fun n => !(n.id == id)),
        edges := s.edges.filter (fun e => !(e.fromId == id || e.toId == id)) }
  | SceneOp.streamUpdate id t => updateNodeText s id t

/-- Apply a sequence of committed updates. -/
def applyOps (s : Scene) (ops : List SceneOp) : Scene :=
  ops.foldl applyOp s

/-- The initial single-root scene of the conversation graph. -/
def initScene (rootId : NodeId) : Scene :=
  { nodes := [{ id := rootId, x := 100, y := 100, w := 240, h := 60, text := "",
                author := Author.user, parentId := none }],
    edges := [] }

/-- A node's parent reference, if present, names an existing key. -/
def nodeParentOk (ns : List Node) (n : Node) : Bool :=
  match n.parentId with
  | none => true
  | some p => containsKey ns p

/-- The parent-existence invariant on a node list. -/
def parentInvNodes (ns : List Node) : Bool :=
  ns.all (nodeParentOk ns)

/-- The parent-existence invariant: every present `parentId` references a node
that exists in the scene's node map. -/
def parentInv (s : Scene) : Bool :=
  parentInvNodes s.nodes

/-- The operations that do not break the parent-existence invariant: everything
except `branchInsert` (whose bot node references a user node never added to the
map) and `deleteNode` (which leaves children's `parentId` dangling). -/
def SceneOp.isParentSafe : SceneOp → Bool
  | SceneOp.branchInsert _ _ _ _ _ => false
  | SceneOp.deleteNode _ => false
  | _ => true

/-! ## Conversation history (`getConversationHistory`) -/

inductive Role
| user
| assistant
deriving DecidableEq, Repr

/-- One entry `{ role, content }` of the request history. -/
structure Turn where
  role : Role
  content : String
deriving DecidableEq, Repr

/-- `{ role: node.author === 'user' ? 'user' : 'assistant', content: node.text }`. -/
def turnOf (n : Node) : Turn :=
  { role := match n.author with
      | Author.user => Role.user
      | Author.llm => Role.assistant,
    content := n.text }

/-- The `while (currentNodeId)` walk of `getConversationHistory`, pushing a turn
and moving to the parent while the current id is found in the map; a missing id
(or an absent `parentId`) ends the walk.  The fuel argument only serves Lean's
termination checker: `nodes.length + 1` steps always suffice on an acyclic
chain, which is what claim C7 assumes. -/
def histGo (nodes : List Node) : Nat → Option NodeId → List Turn
  | 0, _ => []
  | _, none => []
  | fuel + 1, some id =>
      match lookupNode nodes id with
      | some n => turnOf n :: histGo nodes fuel n.parentId
      | none => []

/-- `getConversationHistory(leafNodeId, nodes)`: walk the `parentId` chain from
the leaf and reverse, so the result is ordered root first and leaf last. -/
def getConversationHistory (leafNodeId : NodeId) (nodes : List Node) : List Turn :=
  (histGo nodes (nodes.length + 1) (some leafNodeId)).reverse

/-- `isRevChain nodes rpath leafId`: `rpath` is the leaf-to-root `parentId`
chain starting at `leafId`: each listed node is the map entry for the walked
id, each node's `parentId` names the next listed node, and the last node's
parent is absent from the map (or `parentId` is missing). -/
def isRevChain (nodes : List Node) : List Node → NodeId → Bool
  | [], _ => false
  | [n], id =>
      lookupNode nodes id == some n &&
        (match n.parentId with
         | none => true
         | some p => (lookupNode nodes p).isNone)
  | n :: m :: rest, id =>
      lookupNode nodes id == some n && n.parentId == some m.id &&
        isRevChain nodes (m :: rest) m.id

/-! ## The streaming read loop -/

/-- The fields of one parsed server-sent event the loops use:
`parsed.choices[0].delta.content` and `parsed.choices[0].finish_reason`. -/
structure Event where
  content : Option String
  finish : Option String
deriving DecidableEq, Repr

/-- `JSON.parse` composed with the `choices[0]` field accesses; `none` models a
thrown exception (malformed JSON or missing fields). -/
abbrev Parse := String → Option Event

/-- JavaScript truthiness of `content` in `if (content)`: present and not the
empty string. -/
def contentTruthy (ev : Event) : Bool :=
  match ev.content with
  | some c => !(c == "")
  | none => false

/-- The content of an event (only used when `contentTruthy`). -/
def contentVal (ev : Event) : String :=
  ev.content.getD ""

/-- `chunk.split('\n')` at the character level: split into the (possibly
empty) runs between newline characters.  `[]` never occurs in the result, the
empty string splits to `[""]`, exactly as in JavaScript. -/
def splitNlChars : List Char → List (List Char)
  | [] => [[]]
  | c :: rest =>
      if c = '\n' then [] :: splitNlChars rest
      else
        match splitNlChars rest with
        | [] => [[c]]
        | l :: ls => (c :: l) :: ls

/-- `chunk.split('\n')`. -/
def splitNl (s : String) : List String :=
  (splitNlChars s.data).map String.mk

/-- Inverse of the split: interleave the pieces with `'\n'`. -/
def joinNlChars : List (List Char) → List Char
  | [] => []
  | [l] => l
  | l :: ls => l ++ '\n' :: joinNlChars ls

/-- Interleave string pieces with newlines (the inverse of `splitNl`). -/
def joinNl (ls : List String) : String :=
  String.mk (joinNlChars (ls.map String.data))

/-- `line.startsWith('data: ')`. -/
def startsWithData (l : String) : Bool :=
  decide (l.data.take 6 = ("data: ").data)

/-- `line.replace(/^data: /, '')`: strip one leading `data: ` prefix. -/
def stripData (l : String) : String :=
  if startsWithData l then String.mk (l.data.drop 6) else l

/-- `chunk.split('\n').filter(line => line.startsWith('data: '))` followed by
the per-line prefix strip: the payload strings of one decoded chunk. -/
def extractPayloads (chunk : String) : List String :=
  ((splitNl chunk).filter startsWithData).map stripData

/-- Result of the inner `for (const line of lines)` loop of `addBotResponse` /
`addBranchFromSelection`: the accumulated `assistantText`, the `finished` flag,
and the scene after the `setScene` writes — or the scene at a thrown parse
error. -/
inductive LineOut
  | ok (acc : String) (finished : Bool) (s : Scene)
  | err (s : Scene)
deriving DecidableEq, Repr

/-- The inner line loop of the graph components' streaming readers: stop at a
`[DONE]` payload, parse each other payload, append truthy content (writing the
bot node's text), and stop after a `finish_reason === 'stop'` event. -/
def runLines (f : Parse) (botNodeId : NodeId) : List String → String → Scene → LineOut
  | [], acc, s => LineOut.ok acc false s
  | p :: rest, acc, s =>
      if p = "[DONE]" then LineOut.ok acc true s
      else
        match f p with
        | none => LineOut.err s
        | some ev =>
            let acc2 := if contentTruthy ev then acc ++ contentVal ev else acc
            let s2 := if contentTruthy ev then updateNodeText s botNodeId acc2 else s
            if ev.finish == some ("stop") then LineOut.ok acc2 true s2
            else runLines f botNodeId rest acc2 s2

/-- Result of the whole `while (!finished)` read loop: the final scene, or the
scene at the point a parse error was thrown. -/
inductive RunOut
  | success (s : Scene)
  | failure (s : Scene)
deriving DecidableEq, Repr

/-- The outer `while (!finished)` loop over successive reads, each read's chunk
already split into its payload list; an exhausted list models the reader
reporting `done`. -/
def runChunksL (f : Parse) (botNodeId : NodeId) : List (List String) → String → Scene → RunOut
  | [], _, s => RunOut.success s
  | ps :: rest, acc, s =>
      match runLines f botNodeId ps acc s with
      | LineOut.err s2 => RunOut.failure s2
      | LineOut.ok _ true s2 => RunOut.success s2
      | LineOut.ok acc2 false s2 => runChunksL f botNodeId rest acc2 s2

/-- The scene carried by a `RunOut`. -/
def runScene : RunOut → Scene
  | RunOut.success s => s
  | RunOut.failure s => s

/-- `addBotResponse(parentNodeId)` run to completion: insert the loading bot
node and its edge, then (if the fetch succeeded) run the read loop over the
decoded chunks, writing `errorText` into the bot node when the fetch or a parse
throws.  The trailing `createNextUserNode(botNodeId)` call of the source is the
separate scene operation `SceneOp.createNextUserNode`; it does not touch the
bot node's text. -/
def addBotResponse (s : Scene) (parentNodeId botNodeId : NodeId) (fetchOk : Bool)
    (f : Parse) (chunks : List String) : Scene :=
  match lookupNode s.nodes parentNodeId with
  | none => s
  | some parentNode =>
      let botNode : Node :=
        { id := botNodeId, x := parentNode.x, y := parentNode.y + parentNode.h + 60,
          w := 240, h := 60, text := LOADING_PLACEHOLDER, author := Author.llm,
          parentId := some parentNodeId }
      let s1 : Scene :=
        { nodes := upsert s.nodes botNode,
          edges := s.edges ++ [{ fromId := parentNodeId, toId := botNodeId, fromPoint := none }] }
      if fetchOk then
        match runChunksL f botNodeId (chunks.map extractPayloads) "" s1 with
        | RunOut.success s2 => s2
        | RunOut.failure s2 => updateNodeText s2 botNodeId errorText
      else updateNodeText s1 botNodeId errorText

/-- `addBranchFromSelection(sourceNodeId, selectedText, selection)` run to
completion.  The synthetic user node (text `"<selection>"\n\nExplain this part
more.`) is used only to build the request history and is never inserted into
the scene; the inserted bot node's `parentId` references it anyway. -/
def addBranchFromSelection (s : Scene) (sourceNodeId userNodeId botNodeId : NodeId)
    (fromPt : ℚ × ℚ) (fetchOk : Bool) (f : Parse) (chunks : List String) : Scene :=
  match lookupNode s.nodes sourceNodeId with
  | none => s
  | some sourceNode =>
      let botNode : Node :=
        { id := botNodeId, x := sourceNode.x + sourceNode.w + 40, y := sourceNode.y,
          w := 240, h := 60, text := LOADING_PLACEHOLDER, author := Author.llm,
          parentId := some userNodeId }
      let s1 : Scene :=
        { nodes := upsert s.nodes botNode,
          edges := s.edges ++
            [{ fromId := sourceNodeId, toId := botNodeId, fromPoint := some fromPt }] }
      if fetchOk then
        match runChunksL f botNodeId (chunks.map extractPayloads) "" s1 with
        | RunOut.success s2 => s2
        | RunOut.failure s2 => updateNodeText s2 botNodeId errorText
      else updateNodeText s1 botNodeId errorText

/-- Specification-side consumption: walking one flat payload list, collect the
truthy content strings the graph loop consumes, with a flag recording whether a
terminator (`[DONE]` or a `finish_reason === 'stop'` event) was hit; `none`
models a parse exception reached before any terminator. -/
def consumeList (f : Parse) : List String → Option (List String × Bool)
  | [] => some ([], false)
  | p :: rest =>
      if p = "[DONE]" then some ([], true)
      else
        match f p with
        | none => none
        | some ev =>
            let cs := if contentTruthy ev then [contentVal ev] else []
            if ev.finish == some ("stop") then some (cs, true)
            else (consumeList f rest).map (fun r => (cs ++ r.1, r.2))

/-- `c1 ++ c2 ++ ... ++ cn`. -/
def concatAll : List String → String
  | [] => ""
  | c :: rest => c ++ concatAll rest

/-! ## The Test chat's `handleSend` read loop -/

namespace TestChat

/-- The inner line loop of the Test chat's `handleSend`: a `[DONE]` payload is
skipped with `continue` (the loop keeps consuming), every other payload is
parsed, truthy content is appended, and a `finish_reason === 'stop'` event
finalizes the assistant message but does not stop the loop.  The result is the
accumulated `assistantText` (`none` models a thrown parse exception). -/
def handleSendLines (f : Parse) : List String → String → Option String
  | [], acc => some acc
  | p :: rest, acc =>
      if p = "[DONE]" then handleSendLines f rest acc
      else
        match f p with
        | none => none
        | some ev =>
            let acc2 := if contentTruthy ev then acc ++ contentVal ev else acc
            handleSendLines f rest acc2

/-- The outer `while (true)` loop of `handleSend`: runs until the reader
reports `done` (the chunk list is exhausted). -/
def handleSendChunks (f : Parse) : List (List String) → String → Option String
  | [], acc => some acc
  | ps :: rest, acc =>
      match handleSendLines f ps acc with
      | none => none
      | some acc2 => handleSendChunks f rest acc2

end TestChat

/-! ## Viewport -/

/-- The viewport state `{ x, y, scale }`. -/
structure Vp where
  x : ℚ
  y : ℚ
  scale : ℚ
deriving DecidableEq, Repr

namespace Graph

/-- The graph components' `onWheel`:
`newScale = Math.max(0.25, Math.min(3, prevVp.scale * (1 + delta * 0.0015)))`
with the world point under the cursor kept fixed (graph convention
`world = (screen - vp) / scale`). -/
def onWheel (vp : Vp) (mx my deltaY : ℚ) : Vp :=
  let delta := -deltaY
  let zoomIntensity : ℚ := 15 / 10000
  let newScale := max (1/4) (min 3 (vp.scale * (1 + delta * zoomIntensity)))
  let worldX := (mx - vp.x) / vp.scale
  let worldY := (my - vp.y) / vp.scale
  { x := mx - worldX * newScale, y := my - worldY * newScale, scale := newScale }

end Graph

namespace Canvas

/-- A node of `ConversationCanvas.tsx` (no author tag). -/
structure Node where
  id : NodeId
  x : ℚ
  y : ℚ
  w : ℚ
  h : ℚ
  text : String
  parentId : Option NodeId
deriving DecidableEq, Repr

/-- `clamp(v, min, max) = Math.min(max, Math.max(min, v))`. -/
def clamp (v lo hi : ℚ) : ℚ :=
  min hi (max lo v)

/-- `worldToScreen(x, y) = ((x + vp.x) * vp.scale, (y + vp.y) * vp.scale)`. -/
def worldToScreen (vp : Vp) (x y : ℚ) : ℚ × ℚ :=
  ((x + vp.x) * vp.scale, (y + vp.y) * vp.scale)

/-- `screenToWorld(sx, sy) = (sx / vp.scale - vp.x, sy / vp.scale - vp.y)`. -/
def screenToWorld (vp : Vp) (sx sy : ℚ) : ℚ × ℚ :=
  (sx / vp.scale - vp.x, sy / vp.scale - vp.y)

/-- `ConversationCanvas`'s `onWheel`: clamp the multiplied scale into
`[0.25, 3]` and reposition so the world point under the cursor stays put. -/
def onWheel (vp : Vp) (mx my deltaY : ℚ) : Vp :=
  let delta := -deltaY
  let zoomIntensity : ℚ := 15 / 10000
  let newScale := clamp (vp.scale * (1 + delta * zoomIntensity)) (1/4) 3
  let worldX := mx / vp.scale - vp.x
  let worldY := my / vp.scale - vp.y
  { x := mx / newScale - worldX, y := my / newScale - worldY, scale := newScale }

/-- `pointInRect(px, py, n)`:
`px >= n.x && px <= n.x + n.w && py >= n.y && py <= n.y + n.h`. -/
def pointInRect (px py : ℚ) (n : Node) : Bool :=
  decide (px ≥ n.x) && decide (px ≤ n.x + n.w) && decide (py ≥ n.y) && decide (py ≤ n.y + n.h)

/-- The dragging state `{ id, dx, dy }` started by a node hit. -/
structure Drag where
  id : NodeId
  dx : ℚ
  dy : ℚ
deriving DecidableEq, Repr

/-- The panning state `{ active, sx, sy, ox, oy }` started by a background hit. -/
structure Pan where
  active : Bool
  sx : ℚ
  sy : ℚ
  ox : ℚ
  oy : ℚ
deriving DecidableEq, Repr

/-- `onMouseDown`: convert the click to world coordinates, hit-test with
`Object.values(scene.nodes).reverse().find(n => pointInRect(x, y, n))`, and
either select/start dragging the hit node or clear the selection and start
panning.  `sx, sy` are the click's canvas coordinates, `clientX, clientY` the
raw client coordinates stored in the panning state. -/
def onMouseDown (nodes : List Node) (vp : Vp) (sx sy clientX clientY : ℚ) :
    Option NodeId × Option Drag × Option Pan :=
  let x := (screenToWorld vp sx sy).1
  let y := (screenToWorld vp sx sy).2
  match nodes.reverse.find? (fun n => pointInRect x y n) with
  | some hit => (some hit.id, some { id := hit.id, dx := x - hit.x, dy := y - hit.y }, none)
  | none => (none, none, some { active := true, sx := clientX, sy := clientY, ox := vp.x, oy := vp.y })

end Canvas

/-- Reachable viewport states across `ConversationCanvas` and the graph
components: the initial scale is 1, Reset View restores `{x: 0, y: 0, scale: 1}`,
panning recomputes the offset but keeps the scale, and each wheel step applies
the respective `onWheel`. -/
inductive VpReachable : Vp → Prop
  | init : VpReachable { x := 0, y := 0, scale := 1 }
  | reset (v : Vp) : VpReachable v → VpReachable { x := 0, y := 0, scale := 1 }
  | canvasPan (v : Vp) (ox oy cx cy px py : ℚ) : VpReachable v →
      VpReachable { x := ox + (cx - px) / v.scale, y := oy + (cy - py) / v.scale, scale := v.scale }
  | graphPan (v : Vp) (ox oy cx cy px py : ℚ) : VpReachable v →
      VpReachable { x := ox + (cx - px), y := oy + (cy - py), scale := v.scale }
  | canvasWheel (v : Vp) (mx my deltaY : ℚ) : VpReachable v →
      VpReachable (Canvas.onWheel v mx my deltaY)
  | graphWheel (v : Vp) (mx my deltaY : ℚ) : VpReachable v →
      VpReachable (Graph.onWheel v mx my deltaY)

/-! ## Concrete instances used by witnesses and counterexamples -/

/-- A concrete parse function: payload `"A"` is an event with content `"a"`
and `finish_reason = 'stop'`; payload `"B"` is an event with content `"b"` and
no finish reason; anything else throws. -/
def parseAB : Parse := fun p =>
  if p = "A" then some { content := some ("a"), finish := some ("stop") }
  else if p = "B" then some { content := some ("b"), finish := none }
  else none

/-- A parse function that always throws (malformed JSON). -/
def parseNone : Parse := fun _ => none

/-- The root node of `initScene "r"` (used by witnesses). -/
def initRoot : Node :=
  { id := "r", x := 100, y := 100, w := 240, h := 60, text := "", author := Author.user,
    parentId := none }

/-- A concrete user node (used by witnesses). -/
def wRoot : Node :=
  { id := "r", x := 0, y := 0, w := 1, h := 1, text := "hi", author := Author.user,
    parentId := none }

/-- A concrete llm node answering `wRoot` (used by witnesses). -/
def wLeaf : Node :=
  { id := "c", x := 0, y := 0, w := 1, h := 1, text := "yo", author := Author.llm,
    parentId := some "r" }

/-- A concrete loading bot node under `wRoot` (used by witnesses). -/
def wBot : Node :=
  { id := "b", x := 0, y := 0, w := 1, h := 1, text := LOADING_PLACEHOLDER,
    author := Author.llm, parentId := some "r" }

/-- A concrete two-node scene (used by witnesses). -/
def wScene : Scene :=
  { nodes := [wRoot, wBot], edges := [{ fromId := "r", toId := "b", fromPoint := none }] }

/-! # Lemmas -/

theorem lookupNode_id {ns : List Node} {id : NodeId} {n : Node}
    (h : lookupNode ns id = some n) : n.id = id := by
  induction ns with
  | nil => simp [lookupNode] at h
  | cons m rest ih =>
      by_cases hm : m.id = id
      · simp [lookupNode, hm] at h
        subst h
        exact hm
      · simp [lookupNode, hm] at h
        exact ih h

theorem mem_of_lookupNode {ns : List Node} {id : NodeId} {n : Node}
    (h : lookupNode ns id = some n) : n ∈ ns := by
  induction ns with
  | nil => simp [lookupNode] at h
  | cons m rest ih =>
      by_cases hm : m.id = id
      · simp [lookupNode, hm] at h
        subst h
        exact List.mem_cons_self _ _
      · simp [lookupNode, hm] at h
        exact List.mem_cons_of_mem _ (ih h)

theorem containsKey_of_lookupNode {ns : List Node} {id : NodeId} {n : Node}
    (h : lookupNode ns id = some n) : containsKey ns id = true := by
  induction ns with
  | nil => simp [lookupNode] at h
  | cons m rest ih =>
      by_cases hm : m.id = id
      · simp [containsKey, hm]
      · simp [lookupNode, hm] at h
        simp [containsKey, ih h]

theorem lookupNode_upsert_self (ns : List Node) (n : Node) :
    lookupNode (upsert ns n) n.id = some n := by
  induction ns with
  | nil => simp [upsert, lookupNode]
  | cons m rest ih =>
      by_cases hm : m.id = n.id
      · simp [upsert, hm, lookupNode]
      · simp [upsert, hm, lookupNode, ih]

theorem lookupNode_upsert_ne (ns : List Node) (n : Node) {j : NodeId} (hj : j ≠ n.id) :
    lookupNode (upsert ns n) j = lookupNode ns j := by
  have hnj : ¬ n.id = j := fun h => hj h.symm
  induction ns with
  | nil => simp [upsert, lookupNode, hnj]
  | cons m rest ih =>
      by_cases hm : m.id = n.id
      · have hmj : ¬ m.id = j := fun h => hnj (hm ▸ h)
        simp [upsert, hm, lookupNode, hnj, hmj]
      · simp [upsert, hm, lookupNode, ih]

theorem mem_upsert {ns : List Node} {n m : Node} (h : m ∈ upsert ns n) :
    m = n ∨ m ∈ ns := by
  induction ns with
  | nil =>
      simp [upsert] at h
      exact Or.inl h
  | cons a rest ih =>
      by_cases ha : a.id = n.id
      · simp [upsert, ha] at h
        rcases h with h | h
        · exact Or.inl h
        · exact Or.inr (List.mem_cons_of_mem _ h)
      · simp [upsert, ha] at h
        rcases h with h | h
        · exact Or.inr (h ▸ List.mem_cons_self _ _)
        · rcases ih h with h2 | h2
          · exact Or.inl h2
          · exact Or.inr (List.mem_cons_of_mem _ h2)

theorem containsKey_upsert_of (ns : List Node) (n : Node) {j : NodeId}
    (h : containsKey ns j = true) : containsKey (upsert ns n) j = true := by
  induction ns with
  | nil => simp [containsKey] at h
  | cons m rest ih =>
      by_cases hm : m.id = n.id
      · simp [containsKey, hm] at h
        simp [upsert, hm, containsKey]
        rcases h with h | h
        · exact Or.inl (hm ▸ h)
        · exact Or.inr h
      · simp [containsKey, hm] at h ⊢
        simp [upsert, hm, containsKey]
        rcases h with h | h
        · exact Or.inl h
        · exact Or.inr (ih h)

theorem containsKey_upsert_self (ns : List Node) (n : Node) :
    containsKey (upsert ns n) n.id = true := by
  induction ns with
  | nil => simp [upsert, containsKey]
  | cons m rest ih =>
      by_cases hm : m.id = n.id
      · simp [upsert, hm, containsKey]
      · simp [upsert, hm, containsKey, ih]

theorem upsert_upsert (ns : List Node) {n1 n2 : Node} (h : n1.id = n2.id) :
    upsert (upsert ns n1) n2 = upsert ns n2 := by
  induction ns with
  | nil => simp [upsert, h]
  | cons m rest ih =>
      by_cases hm : m.id = n1.id
      · simp [upsert, hm, h, hm.trans h]
      · have hm2 : ¬ m.id = n2.id := fun h2 => hm (h2.trans h.symm)
        simp [upsert, hm, hm2, ih]

theorem map_id_upsert (ns : List Node) {n : Node} (h : containsKey ns n.id = true) :
    (upsert ns n).map Node.id = ns.map Node.id := by
  induction ns with
  | nil => simp [containsKey] at h
  | cons m rest ih =>
      by_cases hm : m.id = n.id
      · simp [upsert, hm]
      · have : containsKey rest n.id = true := by
          simp [containsKey] at h
          rcases h with h | h
          · exact absurd h hm
          · exact h
        simp [upsert, hm, ih this]

theorem lookupNode_upsert_self_of (ns : List Node) {n : Node} {id : NodeId} (h : n.id = id) :
    lookupNode (upsert ns n) id = some n :=
  h ▸ lookupNode_upsert_self ns n

theorem updateNodeText_edges (s : Scene) (id : NodeId) (t : String) :
    (updateNodeText s id t).edges = s.edges := rfl

theorem lookupNode_updateText_self {ns : List Node} {id : NodeId} {n : Node} (t : String)
    (h : lookupNode ns id = some n) :
    lookupNode (updateText ns id t) id = some { n with text := t } := by
  have hid : n.id = id := lookupNode_id h
  rw [updateText, h]
  exact lookupNode_upsert_self_of ns hid

theorem lookupNode_updateText_ne {ns : List Node} {id j : NodeId} (t : String) (hj : j ≠ id) :
    lookupNode (updateText ns id t) j = lookupNode ns j := by
  cases h : lookupNode ns id with
  | none =>
      rw [updateText, h]
      exact lookupNode_upsert_ne ns _ hj
  | some n =>
      have hid : n.id = id := lookupNode_id h
      rw [updateText, h]
      exact lookupNode_upsert_ne ns _ (show j ≠ n.id from hid.symm ▸ hj)

theorem lookupNode_updateText_text (ns : List Node) (id : NodeId) (t : String) :
    (lookupNode (updateText ns id t) id).map Node.text = some t := by
  cases h : lookupNode ns id with
  | none =>
      rw [updateText, h]
      rw [lookupNode_upsert_self_of ns (show _ = id from rfl)]
      rfl
  | some n =>
      have hid : n.id = id := lookupNode_id h
      rw [updateText, h]
      rw [lookupNode_upsert_self_of ns (show ({ n with text := t } : Node).id = id from hid)]
      rfl

theorem updateText_updateText (ns : List Node) (id : NodeId) (t1 t2 : String) :
    updateText (updateText ns id t1) id t2 = updateText ns id t2 := by
  cases h : lookupNode ns id with
  | none =>
      simp only [updateText, h]
      rw [lookupNode_upsert_self_of ns (show _ = id from rfl)]
      exact upsert_upsert ns rfl
  | some n =>
      have hid : n.id = id := lookupNode_id h
      simp only [updateText, h]
      rw [lookupNode_upsert_self_of ns (show ({ n with text := t1 } : Node).id = id from hid)]
      exact upsert_upsert ns rfl

theorem updateNodeText_updateNodeText (s : Scene) (id : NodeId) (t1 t2 : String) :
    updateNodeText (updateNodeText s id t1) id t2 = updateNodeText s id t2 := by
  show ({ nodes := updateText (updateText s.nodes id t1) id t2, edges := s.edges } : Scene) = _
  rw [updateText_updateText]
  rfl

theorem map_id_updateText {ns : List Node} {id : NodeId} {n : Node} (t : String)
    (h : lookupNode ns id = some n) :
    (updateText ns id t).map Node.id = ns.map Node.id := by
  have hid : n.id = id := lookupNode_id h
  rw [updateText, h]
  exact map_id_upsert ns (show containsKey ns (_ : Node).id = true from by
    simpa [hid] using containsKey_of_lookupNode h)

/-! ## Preservation of the parent-existence invariant -/

theorem nodeParentOk_mono {ns : List Node} (n2 : Node) {m : Node}
    (h : nodeParentOk ns m = true) : nodeParentOk (upsert ns n2) m = true := by
  unfold nodeParentOk at *
  cases hp : m.parentId with
  | none => rfl
  | some p =>
      rw [hp] at h
      exact containsKey_upsert_of ns n2 h

theorem parentInvNodes_upsert {ns : List Node} {n : Node}
    (hs : parentInvNodes ns = true)
    (hn : nodeParentOk (upsert ns n) n = true) :
    parentInvNodes (upsert ns n) = true := by
  rw [parentInvNodes, List.all_eq_true] at *
  intro m hm
  rcases mem_upsert hm with rfl | hmem
  · exact hn
  · exact nodeParentOk_mono n (hs m hmem)

theorem nodeParentOk_of_mem {ns : List Node} {n : Node}
    (hs : parentInvNodes ns = true) (hn : n ∈ ns) : nodeParentOk ns n = true := by
  rw [parentInvNodes, List.all_eq_true] at hs
  exact hs n hn

theorem parentInvNodes_updateText {ns : List Node} (id : NodeId) (t : String)
    (hs : parentInvNodes ns = true) : parentInvNodes (updateText ns id t) = true := by
  cases h : lookupNode ns id with
  | none =>
      rw [updateText, h]
      exact parentInvNodes_upsert hs rfl
  | some n =>
      rw [updateText, h]
      have hn : nodeParentOk ns n = true := nodeParentOk_of_mem hs (mem_of_lookupNode h)
      exact parentInvNodes_upsert hs (nodeParentOk_mono _ hn)

theorem parentInvNodes_applyOp {s : Scene} {op : SceneOp}
    (hs : parentInv s = true) (hop : op.isParentSafe = true) :
    parentInv (applyOp s op) = true := by
  rw [parentInv] at *
  cases op with
  | addNode id x y =>
      exact parentInvNodes_upsert hs rfl
  | createNextUserNode id parentNodeId =>
      cases h : lookupNode s.nodes parentNodeId with
      | none => simpa [applyOp, h] using hs
      | some p =>
          simp only [applyOp, h]
          refine parentInvNodes_upsert hs ?_
          exact containsKey_upsert_of _ _ (containsKey_of_lookupNode h)
  | addBotInsert botNodeId parentNodeId =>
      cases h : lookupNode s.nodes parentNodeId with
      | none => simpa [applyOp, h] using hs
      | some p =>
          simp only [applyOp, h]
          refine parentInvNodes_upsert hs ?_
          exact containsKey_upsert_of _ _ (containsKey_of_lookupNode h)
  | branchInsert botNodeId userNodeId sourceNodeId fpx fpy =>
      simp [SceneOp.isParentSafe] at hop
  | commitEdit id t =>
      cases h : lookupNode s.nodes id with
      | none => simpa [applyOp, h] using hs
      | some n =>
          simp only [applyOp, h]
          have hn : nodeParentOk s.nodes n = true :=
            nodeParentOk_of_mem hs (mem_of_lookupNode h)
          exact parentInvNodes_upsert hs (nodeParentOk_mono _ hn)
  | dragMove id x y =>
      cases h : lookupNode s.nodes id with
      | none => simpa [applyOp, h] using hs
      | some n =>
          simp only [applyOp, h]
          have hn : nodeParentOk s.nodes n = true :=
            nodeParentOk_of_mem hs (mem_of_lookupNode h)
          exact parentInvNodes_upsert hs (nodeParentOk_mono _ hn)
  | deleteNode id =>
      simp [SceneOp.isParentSafe] at hop
  | streamUpdate id t =>
      exact parentInvNodes_updateText id t hs

theorem parentInv_applyOps (s : Scene) (ops : List SceneOp)
    (hs : parentInv s = true) (hops : ∀ op ∈ ops, op.isParentSafe = true) :
    parentInv (applyOps s ops) = true := by
  induction ops generalizing s with
  | nil => simpa [applyOps] using hs
  | cons op rest ih =>
      rw [applyOps, List.foldl_cons]
      exact ih (applyOp s op)
        (parentInvNodes_applyOp hs (hops op (List.mem_cons_self _ _)))
        (fun o ho => hops o (List.mem_cons_of_mem _ ho))

theorem parentInv_initScene (rootId : NodeId) : parentInv (initScene rootId) = true := rfl

/-! ## The streaming read loop versus the consumed-event specification -/

theorem concatAll_append (a b : List String) :
    concatAll (a ++ b) = concatAll a ++ concatAll b := by
  induction a with
  | nil => simp [concatAll]
  | cons c rest ih => simp [concatAll, ih, String.append_assoc]

/-- Splitting the flat consumption at a chunk boundary. -/
theorem consumeList_append (f : Parse) (ps qs : List String) :
    consumeList f (ps ++ qs) =
      match consumeList f ps with
      | none => none
      | some (l, true) => some (l, true)
      | some (l, false) => (consumeList f qs).map (fun r => (l ++ r.1, r.2)) := by
  induction ps with
  | nil =>
      simp only [List.nil_append, consumeList]
      cases consumeList f qs with
      | none => rfl
      | some r => simp
  | cons p rest ih =>
      by_cases hdone : p = "[DONE]"
      · simp [consumeList, hdone]
      · cases hf : f p with
        | none => simp [consumeList, hdone, hf]
        | some ev =>
            by_cases hst : ev.finish == some ("stop")
            · simp [consumeList, hdone, hf, hst]
            · simp only [consumeList, hdone, if_false, hf, hst, ih]
              cases hr : consumeList f rest with
              | none => simp [ih, hr]
              | some r =>
                  rcases r with ⟨l1, fl1⟩
                  cases fl1 with
                  | true => simp [ih, hr]
                  | false =>
                      cases hq : consumeList f qs with
                      | none => simp [ih, hr, hq]
                      | some r2 => simp [ih, hr, hq, List.append_assoc]

/-- The inner line loop, characterised by the consumed contents: the
accumulator grows by their concatenation and the scene receives the
corresponding single net text write (each intermediate write being overwritten
by the next). -/
theorem runLines_eq_of_consumeList (f : Parse) (botNodeId : NodeId) :
    ∀ (ps : List String) (acc : String) (s : Scene) {l : List String} {fl : Bool},
      consumeList f ps = some (l, fl) →
      runLines f botNodeId ps acc s =
        LineOut.ok (acc ++ concatAll l) fl
          (if l = [] then s else updateNodeText s botNodeId (acc ++ concatAll l)) := by
  intro ps
  induction ps with
  | nil =>
      intro acc s l fl h
      simp only [consumeList, Option.some.injEq, Prod.mk.injEq] at h
      rcases h with ⟨hl, hfl⟩
      subst hl
      subst hfl
      simp [runLines, concatAll]
  | cons p rest ih =>
      intro acc s l fl h
      by_cases hdone : p = "[DONE]"
      · simp only [consumeList, hdone, if_true, Option.some.injEq, Prod.mk.injEq] at h
        rcases h with ⟨hl, hfl⟩
        subst hl
        subst hfl
        simp [runLines, hdone, concatAll]
      · cases hf : f p with
        | none => simp [consumeList, hdone, hf] at h
        | some ev =>
            by_cases hst : ev.finish == some ("stop")
            · simp only [consumeList, hdone, if_false, hf, hst, if_true,
                Option.some.injEq, Prod.mk.injEq] at h
              rcases h with ⟨hl, hfl⟩
              subst hl
              subst hfl
              by_cases hct : contentTruthy ev
              · simp [runLines, hdone, hf, hst, hct, concatAll]
              · simp [runLines, hdone, hf, hst, hct, concatAll]
            · simp only [consumeList, hdone, if_false, hf, hst] at h
              cases hr : consumeList f rest with
              | none => simp [hr] at h
              | some r =>
                  rcases r with ⟨l1, fl1⟩
                  rw [hr] at h
                  simp at h
                  rcases h with ⟨hl, hfl⟩
                  subst hfl
                  rcases Bool.eq_false_or_eq_true (contentTruthy ev) with hct | hct
                  · subst hl
                    have hrun := ih (acc ++ contentVal ev)
                      (updateNodeText s botNodeId (acc ++ contentVal ev)) hr
                    simp only [runLines, hdone, if_neg hdone, hf, hst, hct, if_true,
                      ite_true, Bool.false_eq_true, ite_false] at hrun ⊢
                    rw [hrun]
                    cases l1 with
                    | nil => simp [concatAll]
                    | cons c cs =>
                        simp [concatAll, updateNodeText_updateNodeText,
                          String.append_assoc]
                  · subst hl
                    have hrun := ih acc s hr
                    simp [runLines, hdone, hf, hst, hct, hrun]

/-- A parse exception anywhere in the consumed prefix makes the inner loop
throw. -/
theorem runLines_err_of_consumeList_none (f : Parse) (botNodeId : NodeId) :
    ∀ (ps : List String) (acc : String) (s : Scene),
      consumeList f ps = none →
      ∃ s2, runLines f botNodeId ps acc s = LineOut.err s2 := by
  intro ps
  induction ps with
  | nil =>
      intro acc s h
      simp [consumeList] at h
  | cons p rest ih =>
      intro acc s h
      by_cases hdone : p = "[DONE]"
      · simp [consumeList, hdone] at h
      · cases hf : f p with
        | none => exact ⟨s, by simp [runLines, hdone, hf]⟩
        | some ev =>
            by_cases hst : ev.finish == some ("stop")
            · simp [consumeList, hdone, hf, hst] at h
            · simp only [consumeList, hdone, if_false, hf, hst] at h
              have hrest : consumeList f rest = none := by
                cases hq : consumeList f rest with
                | none => rfl
                | some r =>
                    rw [hq] at h
                    simp at h
              rcases Bool.eq_false_or_eq_true (contentTruthy ev) with hct | hct
              · rcases ih (acc ++ contentVal ev)
                  (updateNodeText s botNodeId (acc ++ contentVal ev)) hrest with ⟨s2, hs2⟩
                exact ⟨s2, by simp [runLines, hdone, hf, hst, hct, hs2]⟩
              · rcases ih acc s hrest with ⟨s2, hs2⟩
                exact ⟨s2, by simp [runLines, hdone, hf, hst, hct, hs2]⟩

/-- The outer loop, characterised by the flat consumed contents: the final
scene carries the single net text write `acc ++ concatAll l` into the bot node
(or is untouched when nothing truthy was consumed), independently of how the
payloads were cut into chunks. -/
theorem runChunksL_eq_of_consumeList (f : Parse) (botNodeId : NodeId) :
    ∀ (pss : List (List String)) (acc : String) (s : Scene) {l : List String} {fl : Bool},
      consumeList f pss.flatten = some (l, fl) →
      runChunksL f botNodeId pss acc s =
        RunOut.success (if l = [] then s else updateNodeText s botNodeId (acc ++ concatAll l)) := by
  intro pss
  induction pss with
  | nil =>
      intro acc s l fl h
      simp only [List.flatten_nil, consumeList, Option.some.injEq, Prod.mk.injEq] at h
      rcases h with ⟨hl, hfl⟩
      subst hl
      simp [runChunksL]
  | cons ps rest ih =>
      intro acc s l fl h
      rw [List.flatten_cons, consumeList_append] at h
      cases hr : consumeList f ps with
      | none =>
          rw [hr] at h
          simp at h
      | some r =>
          rcases r with ⟨lc, flc⟩
          rw [hr] at h
          cases flc with
          | true =>
              simp at h
              rcases h with ⟨hl, hfl⟩
              subst hl
              have hlines := runLines_eq_of_consumeList f botNodeId ps acc s hr
              simp [runChunksL, hlines]
          | false =>
              cases hq : consumeList f rest.flatten with
              | none =>
                  rw [hq] at h
                  simp at h
              | some r2 =>
                  rcases r2 with ⟨lr, flr⟩
                  rw [hq] at h
                  simp at h
                  rcases h with ⟨hl, hfl⟩
                  subst hl
                  have hlines := runLines_eq_of_consumeList f botNodeId ps acc s hr
                  by_cases hlc : lc = []
                  · subst hlc
                    simp only [concatAll, String.append_empty, ite_true, List.nil_append] at hlines ⊢
                    have hrec := ih acc s hq
                    simp [runChunksL, hlines, hrec]
                  · have hrec := ih (acc ++ concatAll lc)
                      (updateNodeText s botNodeId (acc ++ concatAll lc)) hq
                    simp only [runChunksL, hlines, if_neg hlc]
                    rw [hrec]
                    by_cases hlr : lr = []
                    · subst hlr
                      simp [concatAll_append, concatAll, hlc]
                    · simp [hlr, hlc, updateNodeText_updateNodeText, concatAll_append,
                        String.append_assoc]

/-- A parse exception in the flat consumed prefix makes the whole read loop
fail. -/
theorem runChunksL_failure_of_consumeList_none (f : Parse) (botNodeId : NodeId) :
    ∀ (pss : List (List String)) (acc : String) (s : Scene),
      consumeList f pss.flatten = none →
      ∃ s2, runChunksL f botNodeId pss acc s = RunOut.failure s2 := by
  intro pss
  induction pss with
  | nil =>
      intro acc s h
      simp [consumeList] at h
  | cons ps rest ih =>
      intro acc s h
      rw [List.flatten_cons, consumeList_append] at h
      cases hr : consumeList f ps with
      | none =>
          rcases runLines_err_of_consumeList_none f botNodeId ps acc s hr with ⟨s2, hs2⟩
          exact ⟨s2, by simp [runChunksL, hs2]⟩
      | some r =>
          rcases r with ⟨lc, flc⟩
          rw [hr] at h
          cases flc with
          | true => simp at h
          | false =>
              have hq : consumeList f rest.flatten = none := by
                cases hq2 : consumeList f rest.flatten with
                | none => rfl
                | some r2 =>
                    rw [hq2] at h
                    simp at h
              have hlines := runLines_eq_of_consumeList f botNodeId ps acc s hr
              by_cases hlc : lc = []
              · subst hlc
                simp only [concatAll, String.append_empty, ite_true] at hlines
                rcases ih acc s hq with ⟨s2, hs2⟩
                exact ⟨s2, by simp [runChunksL, hlines, hs2]⟩
              · rcases ih (acc ++ concatAll lc)
                  (updateNodeText s botNodeId (acc ++ concatAll lc)) hq with ⟨s2, hs2⟩
                refine ⟨s2, ?_⟩
                simp only [runChunksL, hlines, if_neg hlc]
                exact hs2

/-! ## Conversation history -/

theorem histGo_of_isRevChain (nodes : List Node) :
    ∀ (rpath : List Node) (leafId : NodeId) (fuel : Nat),
      isRevChain nodes rpath leafId = true →
      rpath.length ≤ fuel →
      histGo nodes fuel (some leafId) = rpath.map turnOf := by
  intro rpath
  induction rpath with
  | nil =>
      intro leafId fuel h _
      simp [isRevChain] at h
  | cons n rest ih =>
      intro leafId fuel hchain hlen
      cases rest with
      | nil =>
          simp only [isRevChain, Bool.and_eq_true, beq_iff_eq] at hchain
          obtain ⟨hl, hp⟩ := hchain
          cases fuel with
          | zero => simp at hlen
          | succ fuel2 =>
              simp only [histGo, hl, List.map_cons, List.map_nil]
              cases hpid : n.parentId with
              | none =>
                  cases fuel2 <;> simp [histGo]
              | some p =>
                  rw [hpid] at hp
                  simp only [Option.isNone_iff_eq_none] at hp
                  cases fuel2 with
                  | zero => simp [histGo]
                  | succ f3 => simp [histGo, hp]
      | cons m rest2 =>
          simp only [isRevChain, Bool.and_eq_true, beq_iff_eq] at hchain
          obtain ⟨⟨hl, hpid⟩, hrec⟩ := hchain
          cases fuel with
          | zero => simp at hlen
          | succ fuel2 =>
              have hrest := ih m.id fuel2 hrec
                (by simpa using Nat.le_of_succ_le_succ hlen)
              simp [histGo, hl, hpid, hrest]

theorem mem_keys_of_isRevChain (nodes : List Node) :
    ∀ (rpath : List Node) (leafId : NodeId),
      isRevChain nodes rpath leafId = true →
      ∀ n ∈ rpath, n.id ∈ nodes.map Node.id := by
  intro rpath
  induction rpath with
  | nil =>
      intro leafId h
      simp [isRevChain] at h
  | cons n rest ih =>
      intro leafId hchain m hm
      cases rest with
      | nil =>
          simp only [isRevChain, Bool.and_eq_true, beq_iff_eq] at hchain
          obtain ⟨hl, _⟩ := hchain
          rcases List.mem_singleton.mp hm with rfl
          exact List.mem_map_of_mem Node.id (mem_of_lookupNode hl)
      | cons m2 rest2 =>
          simp only [isRevChain, Bool.and_eq_true, beq_iff_eq] at hchain
          obtain ⟨⟨hl, _⟩, hrec⟩ := hchain
          rcases List.mem_cons.mp hm with rfl | hm2
          · exact List.mem_map_of_mem Node.id (mem_of_lookupNode hl)
          · exact ih m2.id hrec m hm2

theorem length_le_of_isRevChain {nodes rpath : List Node} {leafId : NodeId}
    (hchain : isRevChain nodes rpath leafId = true)
    (hnodup : (rpath.map Node.id).Nodup) : rpath.length ≤ nodes.length := by
  have hsub : rpath.map Node.id ⊆ nodes.map Node.id := by
    intro i hi
    rcases List.mem_map.mp hi with ⟨n, hn, rfl⟩
    exact mem_keys_of_isRevChain nodes rpath leafId hchain n hn
  calc rpath.length = (rpath.map Node.id).length := (List.length_map _ _).symm
    _ ≤ (nodes.map Node.id).length := (hnodup.subperm hsub).length_le
    _ = nodes.length := List.length_map _ _

/-! ## Newline splitting and the `data: ` prefix -/

theorem splitNlChars_ne_nil : ∀ l : List Char, splitNlChars l ≠ [] := by
  intro l
  induction l with
  | nil => simp [splitNlChars]
  | cons c rest ih =>
      by_cases hc : c = '\n'
      · simp [splitNlChars, hc]
      · simp only [splitNlChars, hc, if_false]
        cases hr : splitNlChars rest with
        | nil => simp
        | cons x xs => simp

theorem joinNlChars_splitNlChars : ∀ l : List Char, joinNlChars (splitNlChars l) = l := by
  intro l
  induction l with
  | nil => rfl
  | cons c rest ih =>
      by_cases hc : c = '\n'
      · subst hc
        simp only [splitNlChars, if_true]
        cases hr : splitNlChars rest with
        | nil => exact absurd hr (splitNlChars_ne_nil rest)
        | cons x xs =>
            rw [hr] at ih
            simp [joinNlChars, ih]
      · simp only [splitNlChars, hc, if_false]
        cases hr : splitNlChars rest with
        | nil => exact absurd hr (splitNlChars_ne_nil rest)
        | cons x xs =>
            rw [hr] at ih
            cases xs with
            | nil =>
                simp only [joinNlChars] at ih ⊢
                rw [ih]
            | cons y ys =>
                simp only [joinNlChars] at ih ⊢
                rw [List.cons_append, ih]

theorem no_newline_in_splitNlChars :
    ∀ (l : List Char) (piece : List Char), piece ∈ splitNlChars l → '\n' ∉ piece := by
  intro l
  induction l with
  | nil =>
      intro piece hp
      simp [splitNlChars] at hp
      simp [hp]
  | cons c rest ih =>
      intro piece hp
      by_cases hc : c = '\n'
      · simp only [splitNlChars, hc, if_true, List.mem_cons] at hp
        rcases hp with rfl | hp
        · simp
        · exact ih piece hp
      · simp only [splitNlChars, hc, if_false] at hp
        cases hr : splitNlChars rest with
        | nil => exact absurd hr (splitNlChars_ne_nil rest)
        | cons x xs =>
            rw [hr] at hp
            simp only [List.mem_cons] at hp
            rcases hp with rfl | hp
            · intro hmem
              rcases List.mem_cons.mp hmem with h1 | h1
              · exact hc h1.symm
              · exact ih x (hr ▸ List.mem_cons_self x xs) h1
            · exact ih piece (hr ▸ List.mem_cons_of_mem x hp)

theorem joinNl_splitNl (s : String) : joinNl (splitNl s) = s := by
  show String.mk (joinNlChars (((splitNlChars s.data).map String.mk).map String.data)) = s
  rw [List.map_map]
  have : (String.data ∘ String.mk) = id := rfl
  rw [this, List.map_id, joinNlChars_splitNlChars]

theorem stripData_spec {l : String} (h : startsWithData l = true) :
    ("data: ") ++ stripData l = l := by
  have hd : l.data.take 6 = ("data: ").data := by
    simpa [startsWithData] using h
  rw [stripData, if_pos h]
  show String.mk (("data: ").data ++ l.data.drop 6) = l
  rw [← hd, List.take_append_drop]

/-! ## Viewport algebra -/

theorem le_clamp {v lo hi : ℚ} (h : lo ≤ hi) : lo ≤ Canvas.clamp v lo hi :=
  le_min h (le_max_left lo v)

theorem clamp_le (v lo hi : ℚ) : Canvas.clamp v lo hi ≤ hi :=
  min_le_left hi _

theorem canvas_onWheel_scale_bounds (vp : Vp) (mx my deltaY : ℚ) :
    1/4 ≤ (Canvas.onWheel vp mx my deltaY).scale ∧ (Canvas.onWheel vp mx my deltaY).scale ≤ 3 :=
  ⟨le_clamp (by norm_num), clamp_le _ _ _⟩

theorem graph_onWheel_scale_bounds (vp : Vp) (mx my deltaY : ℚ) :
    1/4 ≤ (Graph.onWheel vp mx my deltaY).scale ∧ (Graph.onWheel vp mx my deltaY).scale ≤ 3 :=
  ⟨le_max_left _ _, max_le (by norm_num) (min_le_left _ _)⟩

theorem vpReachable_scale_bounds {v : Vp} (h : VpReachable v) :
    1/4 ≤ v.scale ∧ v.scale ≤ 3 := by
  induction h with
  | init => exact ⟨by norm_num, by norm_num⟩
  | reset v2 _ _ => exact ⟨by norm_num, by norm_num⟩
  | canvasPan v2 ox oy cx cy px py _ ih => exact ih
  | graphPan v2 ox oy cx cy px py _ ih => exact ih
  | canvasWheel v2 mx my deltaY _ _ => exact canvas_onWheel_scale_bounds v2 mx my deltaY
  | graphWheel v2 mx my deltaY _ _ => exact graph_onWheel_scale_bounds v2 mx my deltaY

theorem canvas_onWheel_preserves_cursor (vp : Vp) (mx my deltaY : ℚ) :
    Canvas.worldToScreen (Canvas.onWheel vp mx my deltaY)
      (Canvas.screenToWorld vp mx my).1 (Canvas.screenToWorld vp mx my).2 = (mx, my) := by
  have hpos : (0 : ℚ) < (Canvas.onWheel vp mx my deltaY).scale :=
    lt_of_lt_of_le (by norm_num) (canvas_onWheel_scale_bounds vp mx my deltaY).1
  have hns : (Canvas.onWheel vp mx my deltaY).scale ≠ 0 := ne_of_gt hpos
  have key : ∀ (w w0 t : ℚ), t ≠ 0 → (w0 + (w / t - w0)) * t = w := by
    intro w w0 t ht
    have hsum : w0 + (w / t - w0) = w / t := by ring
    rw [hsum, div_mul_cancel₀ _ ht]
  simp only [Canvas.onWheel] at hns
  simp only [Canvas.onWheel, Canvas.worldToScreen, Canvas.screenToWorld, Prod.mk.injEq]
  exact ⟨key mx _ _ hns, key my _ _ hns⟩

theorem lookupNode_upsert_text (ns : List Node) (n : Node) {id : NodeId} (h : n.id = id) :
    (lookupNode (upsert ns n) id).map Node.text = some n.text := by
  rw [lookupNode_upsert_self_of ns h]
  rfl

/-- Every content collected by the consumption spec is non-empty (JavaScript
truthiness of `content` filters out `''`). -/
theorem consumeList_ne_empty (f : Parse) :
    ∀ (ps : List String) (l : List String) (fl : Bool),
      consumeList f ps = some (l, fl) → ∀ c ∈ l, c ≠ "" := by
  intro ps
  induction ps with
  | nil =>
      intro l fl h c hc
      simp only [consumeList, Option.some.injEq, Prod.mk.injEq] at h
      rcases h with ⟨hl, _⟩
      subst hl
      simp at hc
  | cons p rest ih =>
      intro l fl h c hc
      by_cases hdone : p = "[DONE]"
      · simp only [consumeList, hdone, if_true, Option.some.injEq, Prod.mk.injEq] at h
        rcases h with ⟨hl, _⟩
        subst hl
        simp at hc
      · cases hf : f p with
        | none => simp [consumeList, hdone, hf] at h
        | some ev =>
            have hcontent : contentTruthy ev = true → contentVal ev ≠ "" := by
              intro hct
              unfold contentVal
              cases hco : ev.content with
              | none =>
                  rw [contentTruthy, hco] at hct
                  simp at hct
              | some cv =>
                  rw [contentTruthy, hco] at hct
                  simpa using hct
            by_cases hst : ev.finish == some ("stop")
            · simp only [consumeList, hdone, if_false, hf, hst, if_true,
                Option.some.injEq, Prod.mk.injEq] at h
              rcases h with ⟨hl, _⟩
              subst hl
              cases hct : contentTruthy ev with
              | false =>
                  rw [hct] at hc
                  simp at hc
              | true =>
                  rw [hct] at hc
                  simp at hc
                  subst hc
                  exact hcontent hct
            · simp only [consumeList, hdone, if_false, hf, hst] at h
              cases hr : consumeList f rest with
              | none =>
                  rw [hr] at h
                  simp at h
              | some r =>
                  rcases r with ⟨l1, fl1⟩
                  rw [hr] at h
                  simp at h
                  rcases h with ⟨hl, _⟩
                  subst hl
                  rcases List.mem_append.mp hc with hc1 | hc2
                  · cases hct : contentTruthy ev with
                    | false =>
                        rw [hct] at hc1
                        simp at hc1
                    | true =>
                        rw [hct] at hc1
                        simp at hc1
                        subst hc1
                        exact hcontent hct
                  · exact ih l1 fl1 hr c hc2

/-! # Claims -/

/-- C1 (counterexample): the parent-existence invariant does not hold in every
reachable scene.  First conjunct: from the initial single-root scene,
`addBranchFromSelection` inserts a bot node whose `parentId` names the
synthetic user node `"u"`, which is never added to the node map.  Second
conjunct: `createNextUserNode` followed by `deleteNode` of the parent leaves
the child's `parentId` dangling. -/
theorem C1_counterexample :
    parentInv (applyOps (initScene ("r")) [SceneOp.branchInsert ("b") ("u") ("r") 0 0]) = false ∧
    parentInv (applyOps (initScene ("r"))
      [SceneOp.createNextUserNode ("c") ("r"), SceneOp.deleteNode ("r")]) = false := by
  exact ⟨by decide, by decide⟩

/-- C1 (amended): starting from the initial single-root scene and stepping by
any sequence of the operations `addNode`, `createNextUserNode`, the insertion
of `addBotResponse`, `commitEdit`, drag moves, and streaming text updates —
that is, excluding `addBranchFromSelection` (whose bot node references a user
node never inserted) and `deleteNode` (which leaves children dangling) — every
node whose `parentId` field is present references a node that exists in the
scene's node map. -/
theorem C1_parent_invariant (rootId : NodeId) (ops : List SceneOp)
    (hops : ∀ op ∈ ops, op.isParentSafe = true) :
    parentInv (applyOps (initScene rootId) ops) = true :=
  parentInv_applyOps _ _ (parentInv_initScene rootId) hops

/-- Witness for C1 at a concrete operation sequence. -/
theorem C1_witness :
    (∀ op ∈ [SceneOp.addNode ("a") 1 2, SceneOp.createNextUserNode ("c") ("a"),
        SceneOp.addBotInsert ("b") ("c"), SceneOp.commitEdit ("a") ("hi"),
        SceneOp.dragMove ("b") 5 6, SceneOp.streamUpdate ("b") ("yo")],
      op.isParentSafe = true) ∧
    parentInv (applyOps (initScene ("r"))
      [SceneOp.addNode ("a") 1 2, SceneOp.createNextUserNode ("c") ("a"),
        SceneOp.addBotInsert ("b") ("c"), SceneOp.commitEdit ("a") ("hi"),
        SceneOp.dragMove ("b") 5 6, SceneOp.streamUpdate ("b") ("yo")]) = true :=
  ⟨by decide, C1_parent_invariant ("r") _ (by decide)⟩

/-- C5: for every viewport with scale in `[0.25, 3]` and every wheel event at
screen position `(mx, my)`, the viewport returned by `onWheel` maps the world
point that was under `(mx, my)` before the zoom back to exactly `(mx, my)`,
including when the new scale is clamped at `0.25` or `3` (the new scale is a
clamp, covered for every `deltaY`). -/
theorem C5_wheel_zoom_fixes_cursor (vp : Vp) (mx my deltaY : ℚ)
    (_h1 : 1/4 ≤ vp.scale) (_h2 : vp.scale ≤ 3) :
    Canvas.worldToScreen (Canvas.onWheel vp mx my deltaY)
      (Canvas.screenToWorld vp mx my).1 (Canvas.screenToWorld vp mx my).2 = (mx, my) :=
  canvas_onWheel_preserves_cursor vp mx my deltaY

/-- Witness for C5 at a concrete viewport and wheel event (zooming in by
`deltaY = -800` from scale 1). -/
theorem C5_witness :
    (1/4 ≤ ({ x := 0, y := 0, scale := 1 } : Vp).scale ∧
      ({ x := 0, y := 0, scale := 1 } : Vp).scale ≤ 3) ∧
    Canvas.worldToScreen (Canvas.onWheel { x := 0, y := 0, scale := 1 } 8 4 (-800))
      (Canvas.screenToWorld { x := 0, y := 0, scale := 1 } 8 4).1
      (Canvas.screenToWorld { x := 0, y := 0, scale := 1 } 8 4).2 = (8, 4) :=
  ⟨⟨by norm_num, by norm_num⟩,
    C5_wheel_zoom_fixes_cursor { x := 0, y := 0, scale := 1 } 8 4 (-800)
      (by norm_num) (by norm_num)⟩

/-- C9: for every viewport with nonzero scale, `screenToWorld` and
`worldToScreen` of `ConversationCanvas` are mutually inverse. -/
theorem C9_transforms_inverse (vp : Vp) (x y sx sy : ℚ) (hs : vp.scale ≠ 0) :
    Canvas.screenToWorld vp (Canvas.worldToScreen vp x y).1 (Canvas.worldToScreen vp x y).2
        = (x, y) ∧
    Canvas.worldToScreen vp (Canvas.screenToWorld vp sx sy).1 (Canvas.screenToWorld vp sx sy).2
        = (sx, sy) := by
  simp only [Canvas.worldToScreen, Canvas.screenToWorld, Prod.mk.injEq]
  constructor
  · constructor
    · rw [mul_div_assoc, div_self hs, mul_one, add_sub_cancel_right]
    · rw [mul_div_assoc, div_self hs, mul_one, add_sub_cancel_right]
  · constructor
    · rw [sub_add_cancel, div_mul_cancel₀ _ hs]
    · rw [sub_add_cancel, div_mul_cancel₀ _ hs]

/-- Witness for C9 at a concrete viewport and points. -/
theorem C9_witness :
    (({ x := 7, y := -2, scale := 2 } : Vp).scale ≠ 0) ∧
    (Canvas.screenToWorld { x := 7, y := -2, scale := 2 }
        (Canvas.worldToScreen { x := 7, y := -2, scale := 2 } 3 5).1
        (Canvas.worldToScreen { x := 7, y := -2, scale := 2 } 3 5).2 = (3, 5) ∧
      Canvas.worldToScreen { x := 7, y := -2, scale := 2 }
        (Canvas.screenToWorld { x := 7, y := -2, scale := 2 } 10 11).1
        (Canvas.screenToWorld { x := 7, y := -2, scale := 2 } 10 11).2 = (10, 11)) :=
  ⟨by decide, C9_transforms_inverse { x := 7, y := -2, scale := 2 } 3 5 10 11 (by decide)⟩

/-- C10: in every reachable viewport state of `ConversationCanvas` and the
graph components (initial scale 1, Reset View, panning, wheel zooming), the
scale lies in `[0.25, 3]`; moreover every single wheel step lands in
`[0.25, 3]` whatever the previous scale was. -/
theorem C10_scale_bounds :
    (∀ v : Vp, VpReachable v → 1/4 ≤ v.scale ∧ v.scale ≤ 3) ∧
    (∀ (vp : Vp) (mx my deltaY : ℚ),
      1/4 ≤ (Canvas.onWheel vp mx my deltaY).scale ∧
        (Canvas.onWheel vp mx my deltaY).scale ≤ 3) ∧
    (∀ (vp : Vp) (mx my deltaY : ℚ),
      1/4 ≤ (Graph.onWheel vp mx my deltaY).scale ∧
        (Graph.onWheel vp mx my deltaY).scale ≤ 3) :=
  ⟨fun _ h => vpReachable_scale_bounds h, canvas_onWheel_scale_bounds,
    graph_onWheel_scale_bounds⟩

/-- Witness for C10 at a concrete reachable viewport (one canvas wheel step
after the initial state). -/
theorem C10_witness :
    1/4 ≤ (Canvas.onWheel { x := 0, y := 0, scale := 1 } 8 4 (-800)).scale ∧
    (Canvas.onWheel { x := 0, y := 0, scale := 1 } 8 4 (-800)).scale ≤ 3 :=
  C10_scale_bounds.1 (Canvas.onWheel { x := 0, y := 0, scale := 1 } 8 4 (-800))
    (VpReachable.canvasWheel _ 8 4 (-800) VpReachable.init)

/-- C2 (amended): in every streaming read loop a received chunk is split on
newline characters (the split pieces are newline-free and re-interleave to the
chunk) and only lines beginning with `data: ` are kept, with exactly that
prefix stripped.  In `addBotResponse` / `addBranchFromSelection` the loop
stops consuming as soon as a payload equals `[DONE]` (the rest of the chunk
and all later chunks are ignored), when the reader reports `done`, or right
after an event carrying `finish_reason = 'stop'`.  The Test chat's
`handleSend`, by contrast, skips a `[DONE]` line without parsing it and keeps
consuming; a parsed event never stops its loop (not even one with
`finish_reason = 'stop'`), which only ends at reader `done`. -/
theorem C2_streaming_loops :
    (∀ chunk : String, joinNl (splitNl chunk) = chunk) ∧
    (∀ (chunk piece : String), piece ∈ splitNl chunk → ('\n') ∉ piece.data) ∧
    (∀ l : String, startsWithData l = true → ("data: ") ++ stripData l = l) ∧
    (∀ chunk : String,
      extractPayloads chunk = ((splitNl chunk).filter startsWithData).map stripData) ∧
    (∀ (f : Parse) (botNodeId : NodeId) (rest : List String) (acc : String) (s : Scene),
      runLines f botNodeId ("[DONE]" :: rest) acc s = LineOut.ok acc true s) ∧
    (∀ (f : Parse) (botNodeId : NodeId) (ps : List String) (rest : List (List String))
       (acc : String) (s : Scene),
      runChunksL f botNodeId (("[DONE]" :: ps) :: rest) acc s = RunOut.success s) ∧
    (∀ (f : Parse) (botNodeId : NodeId) (acc : String) (s : Scene),
      runChunksL f botNodeId [] acc s = RunOut.success s) ∧
    (∀ (f : Parse) (rest : List String) (acc : String),
      TestChat.handleSendLines f ("[DONE]" :: rest) acc = TestChat.handleSendLines f rest acc) ∧
    (∀ (f : Parse) (acc : String), TestChat.handleSendChunks f [] acc = some acc) ∧
    (∀ (f : Parse) (botNodeId : NodeId) (p : String) (rest : List String) (acc : String)
       (s : Scene) (ev : Event), f p = some ev → ev.finish = some ("stop") →
      runLines f botNodeId (p :: rest) acc s = runLines f botNodeId [p] acc s) ∧
    (∀ (f : Parse) (p : String) (rest : List String) (acc : String) (ev : Event),
      p ≠ "[DONE]" → f p = some ev →
      TestChat.handleSendLines f (p :: rest) acc =
        TestChat.handleSendLines f rest
          (if contentTruthy ev then acc ++ contentVal ev else acc)) := by
  refine ⟨joinNl_splitNl, ?_, fun l h => stripData_spec h, fun _ => rfl, ?_, ?_, ?_, ?_, ?_,
    ?_, ?_⟩
  · intro chunk piece hp hmem
    rcases List.mem_map.mp hp with ⟨cp, hcp, rfl⟩
    exact no_newline_in_splitNlChars chunk.data cp hcp hmem
  · intro f botNodeId rest acc s
    simp [runLines]
  · intro f botNodeId ps rest acc s
    simp [runChunksL, runLines]
  · intro f botNodeId acc s
    rfl
  · intro f rest acc
    simp [TestChat.handleSendLines]
  · intro f acc
    rfl
  · intro f botNodeId p rest acc s ev hf hst
    by_cases hdone : p = "[DONE]"
    · simp [runLines, hdone]
    · have hb : (ev.finish == some ("stop")) = true := by simp [hst]
      simp [runLines, hdone, hf, hb]
  · intro f p rest acc ev hdone hf
    simp [TestChat.handleSendLines, hdone, hf]

/-- C2 (counterexample): the claim says the Test chat's `handleSend` stops
consuming events at a `[DONE]` payload; it does not — with a later event
carrying content `"b"`, the loop consumes it (accumulating `"b"`), so the
result differs from the stream that ends at `[DONE]`. -/
theorem C2_counterexample :
    TestChat.handleSendLines parseAB ["[DONE]", "B"] "" = some ("b") ∧
    TestChat.handleSendLines parseAB ["[DONE]"] "" = some ("") ∧
    TestChat.handleSendLines parseAB ["[DONE]", "B"] "" ≠
      TestChat.handleSendLines parseAB ["[DONE]"] "" :=
  ⟨by decide, by decide, by decide⟩

/-- Witness for C2 at concrete inputs: the graph loop stop at a
`finish_reason = 'stop'` event, and the Test loop continuing past a parsed
event. -/
theorem C2_witness :
    (parseAB ("A") = some { content := some ("a"), finish := some ("stop") } ∧
      runLines parseAB ("b") ["A", "B"] "" { nodes := [], edges := [] } =
        runLines parseAB ("b") ["A"] "" { nodes := [], edges := [] }) ∧
    ((("B" : String) ≠ "[DONE]") ∧
      TestChat.handleSendLines parseAB ["B", "B"] "" =
        TestChat.handleSendLines parseAB ["B"]
          (if contentTruthy { content := some ("b"), finish := none } then
            "" ++ contentVal { content := some ("b"), finish := none }
          else "")) ∧
    ((("a" : String) ∈ splitNl ("a\nb")) ∧ ('\n') ∉ ("a" : String).data) ∧
    (startsWithData ("data: hi") = true ∧ ("data: ") ++ stripData ("data: hi") = ("data: hi")) :=
  ⟨⟨by decide,
      C2_streaming_loops.2.2.2.2.2.2.2.2.2.1 parseAB ("b") ("A") ["B"] ""
        { nodes := [], edges := [] } { content := some ("a"), finish := some ("stop") }
        (by decide) (by decide)⟩,
    ⟨by decide,
      C2_streaming_loops.2.2.2.2.2.2.2.2.2.2 parseAB ("B") ["B"] ""
        { content := some ("b"), finish := none } (by decide) (by decide)⟩,
    ⟨by decide, C2_streaming_loops.2.1 ("a\nb") ("a") (by decide)⟩,
    ⟨by decide, C2_streaming_loops.2.2.1 ("data: hi") (by decide)⟩⟩

/-- C6: `pointInRect(px, py, n)` is true exactly when `(px, py)` lies in the
closed rectangle `[n.x, n.x + n.w] × [n.y, n.y + n.h]`, and `onMouseDown`
selects and starts dragging the first node of the reversed insertion-order
node list whose closed rectangle contains the click's world point, or clears
the selection and starts panning when no node contains it. -/
theorem C6_hit_testing :
    (∀ (px py : ℚ) (n : Canvas.Node),
      Canvas.pointInRect px py n = true ↔
        (n.x ≤ px ∧ px ≤ n.x + n.w ∧ n.y ≤ py ∧ py ≤ n.y + n.h)) ∧
    (∀ (nodes : List Canvas.Node) (vp : Vp) (sx sy cx cy : ℚ),
      Canvas.onMouseDown nodes vp sx sy cx cy =
        (nodes.reverse.find? (fun n =>
            decide (n.x ≤ (Canvas.screenToWorld vp sx sy).1 ∧
              (Canvas.screenToWorld vp sx sy).1 ≤ n.x + n.w ∧
              n.y ≤ (Canvas.screenToWorld vp sx sy).2 ∧
              (Canvas.screenToWorld vp sx sy).2 ≤ n.y + n.h))).elim
          (none, none, some { active := true, sx := cx, sy := cy, ox := vp.x, oy := vp.y })
          (fun hit => (some hit.id,
            some { id := hit.id, dx := (Canvas.screenToWorld vp sx sy).1 - hit.x,
                   dy := (Canvas.screenToWorld vp sx sy).2 - hit.y }, none))) := by
  have hiff : ∀ (px py : ℚ) (n : Canvas.Node),
      Canvas.pointInRect px py n = true ↔
        (n.x ≤ px ∧ px ≤ n.x + n.w ∧ n.y ≤ py ∧ py ≤ n.y + n.h) := by
    intro px py n
    simp [Canvas.pointInRect, Bool.and_eq_true, decide_eq_true_iff, ge_iff_le, and_assoc]
  refine ⟨hiff, ?_⟩
  intro nodes vp sx sy cx cy
  have hpred : (fun n => Canvas.pointInRect (Canvas.screenToWorld vp sx sy).1
        (Canvas.screenToWorld vp sx sy).2 n)
      = (fun n => decide (n.x ≤ (Canvas.screenToWorld vp sx sy).1 ∧
          (Canvas.screenToWorld vp sx sy).1 ≤ n.x + n.w ∧
          n.y ≤ (Canvas.screenToWorld vp sx sy).2 ∧
          (Canvas.screenToWorld vp sx sy).2 ≤ n.y + n.h)) := by
    funext n
    rw [Bool.eq_iff_iff]
    rw [hiff]
    simp [decide_eq_true_iff]
  simp only [Canvas.onMouseDown]
  rw [hpred]
  cases h : nodes.reverse.find? (fun n =>
      decide (n.x ≤ (Canvas.screenToWorld vp sx sy).1 ∧
        (Canvas.screenToWorld vp sx sy).1 ≤ n.x + n.w ∧
        n.y ≤ (Canvas.screenToWorld vp sx sy).2 ∧
        (Canvas.screenToWorld vp sx sy).2 ≤ n.y + n.h)) with
  | none => rfl
  | some hit => rfl

/-- C7: for every node map in which the `parentId` chain from the leaf is
finite and acyclic (witnessed by the leaf-to-root chain `rpath` with pairwise
distinct ids), `getConversationHistory` terminates within its fuel and returns
exactly the turns on the path from the root of the chain to the leaf, root
first and leaf last, each turn's role being `user` for a user-authored node
and `assistant` otherwise, and its content the node's text; an absent parent
ends the walk (built into the chain's root condition). -/
theorem C7_conversation_history (nodes : List Node) (leafId : NodeId) (rpath : List Node)
    (hchain : isRevChain nodes rpath leafId = true)
    (hnodup : (rpath.map Node.id).Nodup) :
    getConversationHistory leafId nodes = (rpath.reverse).map turnOf ∧
    (∀ n : Node, (turnOf n).content = n.text) ∧
    (∀ n : Node, n.author = Author.user → (turnOf n).role = Role.user) ∧
    (∀ n : Node, n.author ≠ Author.user → (turnOf n).role = Role.assistant) := by
  refine ⟨?_, fun n => rfl, ?_, ?_⟩
  · have hlen : rpath.length ≤ nodes.length + 1 :=
      le_trans (length_le_of_isRevChain hchain hnodup) (Nat.le_succ _)
    rw [getConversationHistory,
      histGo_of_isRevChain nodes rpath leafId (nodes.length + 1) hchain hlen,
      List.map_reverse]
  · intro n h
    simp [turnOf, h]
  · intro n h
    cases ha : n.author with
    | user => exact absurd ha h
    | llm => simp [turnOf, ha]

/-- C8: during the streaming read loop of `addBotResponse`, a consumed content
event steps the loop by exactly one `updateNodeText` write (first conjunct),
and every such write — including the catch-branch error write, which is the
same `updateNodeText` applied with `errorText` — changes only the text field
of the bot node: the edge list, every other node, and the bot node's id,
position, size, author and `parentId` are unchanged, and the key order of the
node map is preserved (second conjunct). -/
theorem C8_streaming_frame :
    (∀ (f : Parse) (botNodeId : NodeId) (p : String) (rest : List String) (acc : String)
       (s : Scene) (ev : Event), p ≠ "[DONE]" → f p = some ev → contentTruthy ev = true →
       (ev.finish == some ("stop")) = false →
      runLines f botNodeId (p :: rest) acc s =
        runLines f botNodeId rest (acc ++ contentVal ev)
          (updateNodeText s botNodeId (acc ++ contentVal ev))) ∧
    (∀ (s : Scene) (botNodeId : NodeId) (t : String) (n : Node),
      lookupNode s.nodes botNodeId = some n →
      (updateNodeText s botNodeId t).edges = s.edges ∧
      lookupNode (updateNodeText s botNodeId t).nodes botNodeId = some { n with text := t } ∧
      (∀ j, j ≠ botNodeId →
        lookupNode (updateNodeText s botNodeId t).nodes j = lookupNode s.nodes j) ∧
      (updateNodeText s botNodeId t).nodes.map Node.id = s.nodes.map Node.id) := by
  constructor
  · intro f botNodeId p rest acc s ev hdone hf hct hst
    simp [runLines, hdone, hf, hct, hst]
  · intro s botNodeId t n h
    exact ⟨rfl, lookupNode_updateText_self t h,
      fun j hj => lookupNode_updateText_ne t hj, map_id_updateText t h⟩

/-- C3 (counterexample): the bot node's final text is not always the
concatenation of all non-empty streamed `delta.content` values.  With payloads
`A` (content `"a"`, `finish_reason = 'stop'`) and `B` (content `"b"`) in one
chunk, the loop stops at the stop event, so the final text is `"a"`, not
`"ab"`. -/
theorem C3_counterexample :
    (lookupNode (addBotResponse (initScene ("r")) ("r") ("b") true parseAB
        ["data: A\ndata: B"]).nodes ("b")).map Node.text = some ("a") ∧
    ("a" : String) ≠ ("a" ++ "b") :=
  ⟨by decide, by decide⟩

/-- C3 (amended): after the read loop of `addBotResponse` completes without
error, the text of the bot node created for that response equals the
concatenation `c1 ++ ... ++ cn` in arrival order of the non-empty
`delta.content` values of the events the loop consumed — all events before
the first `[DONE]` line, up to and including the first event carrying
`finish_reason = 'stop'`, or the whole stream if neither occurs — and each
such value is non-empty; when no such value is consumed (`n = 0`) the text
remains `LOADING_PLACEHOLDER`.  The result is independent of the chunking of
the payloads (the specification reads the flattened payload list). -/
theorem C3_streamed_text (s : Scene) (parentNodeId botNodeId : NodeId) (f : Parse)
    (chunks : List String) (parentNode : Node) (l : List String) (fl : Bool)
    (hparent : lookupNode s.nodes parentNodeId = some parentNode)
    (hconsume : consumeList f ((chunks.map extractPayloads).flatten) = some (l, fl)) :
    (lookupNode (addBotResponse s parentNodeId botNodeId true f chunks).nodes botNodeId).map
        Node.text = some (if l = [] then LOADING_PLACEHOLDER else concatAll l) ∧
    (∀ c ∈ l, c ≠ "") := by
  refine ⟨?_, consumeList_ne_empty f _ l fl hconsume⟩
  simp only [addBotResponse, hparent]
  rw [runChunksL_eq_of_consumeList f botNodeId (chunks.map extractPayloads) "" _ hconsume]
  by_cases hl : l = []
  · subst hl
    simp only [ite_true]
    exact lookupNode_upsert_text s.nodes _ rfl
  · simp only [if_neg hl, if_true, ite_true, updateNodeText]
    rw [lookupNode_updateText_text]
    rw [String.empty_append]

/-- Witness for C3 at a concrete scene and stream (one consumed content event
`"b"`, no terminator). -/
theorem C3_witness :
    (lookupNode (initScene ("r")).nodes ("r") = some initRoot ∧
      consumeList parseAB ((["data: B"].map extractPayloads).flatten) =
        some (["b"], false)) ∧
    ((lookupNode (addBotResponse (initScene ("r")) ("r") ("b") true parseAB
        ["data: B"]).nodes ("b")).map Node.text =
      some (if (["b"] : List String) = [] then LOADING_PLACEHOLDER else concatAll ["b"]) ∧
    (∀ c ∈ (["b"] : List String), c ≠ "")) :=
  ⟨⟨by decide, by decide⟩,
    C3_streamed_text (initScene ("r")) ("r") ("b") parseAB ["data: B"] initRoot
      ["b"] false (by decide) (by decide)⟩

/-- C4: if the fetch fails (or the response is not ok), or JSON parsing of a
consumed event throws, during `addBotResponse` or `addBranchFromSelection`,
the exception is caught and the bot node created for that response ends with
its text set to the literal `Error fetching response.`; the run functions are
total (no exception propagates) and perform a single fetch attempt, so no
retry occurs. -/
theorem C4_error_fallback :
    (∀ (s : Scene) (parentNodeId botNodeId : NodeId) (f : Parse) (chunks : List String)
       (parentNode : Node), lookupNode s.nodes parentNodeId = some parentNode →
      (lookupNode (addBotResponse s parentNodeId botNodeId false f chunks).nodes
          botNodeId).map Node.text = some errorText) ∧
    (∀ (s : Scene) (parentNodeId botNodeId : NodeId) (f : Parse) (chunks : List String)
       (parentNode : Node), lookupNode s.nodes parentNodeId = some parentNode →
      consumeList f ((chunks.map extractPayloads).flatten) = none →
      (lookupNode (addBotResponse s parentNodeId botNodeId true f chunks).nodes
          botNodeId).map Node.text = some errorText) ∧
    (∀ (s : Scene) (sourceNodeId userNodeId botNodeId : NodeId) (fromPt : ℚ × ℚ) (f : Parse)
       (chunks : List String) (sourceNode : Node),
      lookupNode s.nodes sourceNodeId = some sourceNode →
      (lookupNode (addBranchFromSelection s sourceNodeId userNodeId botNodeId fromPt false f
          chunks).nodes botNodeId).map Node.text = some errorText) ∧
    (∀ (s : Scene) (sourceNodeId userNodeId botNodeId : NodeId) (fromPt : ℚ × ℚ) (f : Parse)
       (chunks : List String) (sourceNode : Node),
      lookupNode s.nodes sourceNodeId = some sourceNode →
      consumeList f ((chunks.map extractPayloads).flatten) = none →
      (lookupNode (addBranchFromSelection s sourceNodeId userNodeId botNodeId fromPt true f
          chunks).nodes botNodeId).map Node.text = some errorText) := by
  refine ⟨?_, ?_, ?_, ?_⟩
  · intro s parentNodeId botNodeId f chunks parentNode hparent
    simp only [addBotResponse, hparent]
    exact lookupNode_updateText_text _ _ _
  · intro s parentNodeId botNodeId f chunks parentNode hparent hnone
    simp only [addBotResponse, hparent]
    rcases runChunksL_failure_of_consumeList_none f botNodeId (chunks.map extractPayloads)
      "" _ hnone with ⟨s2, hs2⟩
    rw [hs2]
    exact lookupNode_updateText_text _ _ _
  · intro s sourceNodeId userNodeId botNodeId fromPt f chunks sourceNode hsource
    simp only [addBranchFromSelection, hsource]
    exact lookupNode_updateText_text _ _ _
  · intro s sourceNodeId userNodeId botNodeId fromPt f chunks sourceNode hsource hnone
    simp only [addBranchFromSelection, hsource]
    rcases runChunksL_failure_of_consumeList_none f botNodeId (chunks.map extractPayloads)
      "" _ hnone with ⟨s2, hs2⟩
    rw [hs2]
    exact lookupNode_updateText_text _ _ _

/-- Witness for C4 at concrete inputs: a failed fetch and a stream whose only
payload fails to parse. -/
theorem C4_witness :
    (lookupNode (initScene ("r")).nodes ("r") = some initRoot ∧
      consumeList parseNone ((["data: X"].map extractPayloads).flatten) = none) ∧
    ((lookupNode (addBotResponse (initScene ("r")) ("r") ("b") false parseAB
        ["data: B"]).nodes ("b")).map Node.text = some errorText ∧
      (lookupNode (addBotResponse (initScene ("r")) ("r") ("b") true parseNone
        ["data: X"]).nodes ("b")).map Node.text = some errorText ∧
      (lookupNode (addBranchFromSelection (initScene ("r")) ("r") ("u") ("b") (1, 2) true
        parseNone ["data: X"]).nodes ("b")).map Node.text = some errorText) :=
  ⟨⟨by decide, by decide⟩,
    C4_error_fallback.1 (initScene ("r")) ("r") ("b") parseAB ["data: B"] initRoot
      (by decide),
    C4_error_fallback.2.1 (initScene ("r")) ("r") ("b") parseNone ["data: X"] initRoot
      (by decide) (by decide),
    C4_error_fallback.2.2.2 (initScene ("r")) ("r") ("u") ("b") (1, 2) parseNone
      ["data: X"] initRoot (by decide) (by decide)⟩

/-- Witness for C7 at a concrete two-node chain (user root, llm leaf). -/
theorem C7_witness :
    (isRevChain [wRoot, wLeaf] [wLeaf, wRoot] ("c") = true ∧
      (([wLeaf, wRoot].map Node.id).Nodup)) ∧
    getConversationHistory ("c") [wRoot, wLeaf] = ([wLeaf, wRoot].reverse).map turnOf :=
  ⟨⟨by decide, by decide⟩,
    (C7_conversation_history [wRoot, wLeaf] ("c") [wLeaf, wRoot]
      (by decide) (by decide)).1⟩

/-- Witness for C8 at a concrete scene update (the second conjunct of the
frame property, applied to a two-node scene). -/
theorem C8_witness :
    (lookupNode wScene.nodes ("b") = some wBot) ∧
    ((updateNodeText wScene ("b") ("ok")).edges = wScene.edges ∧
      lookupNode (updateNodeText wScene ("b") ("ok")).nodes ("b") =
        some { wBot with text := ("ok") } ∧
      (∀ j, j ≠ ("b") →
        lookupNode (updateNodeText wScene ("b") ("ok")).nodes j = lookupNode wScene.nodes j) ∧
      (updateNodeText wScene ("b") ("ok")).nodes.map Node.id = wScene.nodes.map Node.id) ∧
    ((("B" : String) ≠ "[DONE]" ∧ parseAB ("B") = some { content := some ("b"), finish := none } ∧
        contentTruthy { content := some ("b"), finish := none } = true ∧
        (({ content := some ("b"), finish := none } : Event).finish == some ("stop")) = false) ∧
      runLines parseAB ("b") ["B"] "" wScene =
        runLines parseAB ("b") []
          ("" ++ contentVal { content := some ("b"), finish := none })
          (updateNodeText wScene ("b")
            ("" ++ contentVal { content := some ("b"), finish := none }))) :=
  ⟨by decide, C8_streaming_frame.2 wScene ("b") ("ok") wBot (by decide),
    ⟨⟨by decide, by decide, by decide, by decide⟩,
      C8_streaming_frame.1 parseAB ("b") ("B") [] "" wScene
        { content := some ("b"), finish := none } (by decide) (by decide) (by decide)
        (by decide)⟩⟩

end CanvasBop
